import Mathlib

/-!
Formal model of the company-financial-api repository.

The definitions below are a shallow embedding of the Python sources:

* `parse_numeric_value`           — src/scripts/import_data.py
* the importer (`import_company_info`, dependent loads, `runImport`)
                                  — src/scripts/import_data.py
* the query endpoints (`list_companies`, `get_company_industries`,
  `list_balance_sheets`, `get_company_balance_sheet`,
  `list_industry_codes`, ...)    — src/app/routers/*.py

Machine reals are modelled as `ℚ` (every value exercised here is an exactly
representable decimal), fallible operations return `Option`/`Except`, and the
relational store is a record of lists (rows in insertion order, as produced by
the importer into the SQLite tables).
-/

namespace CompanyApi

/-! ### Python string primitives -/

/-- Whitespace characters recognised by Python `str.strip()` and by the
parsers of `int()` / `float()`.  We model the ASCII whitespace range plus the
C1 and Latin-1 space characters; other exotic Unicode space characters do not
occur in any input considered here. -/
def pyWhitespace (c : Char) : Bool :=
  c == ' ' || c == '\t' || c == '\n' || c == '\r' ||
  c == Char.ofNat 11 || c == Char.ofNat 12 ||
  c == Char.ofNat 28 || c == Char.ofNat 29 || c == Char.ofNat 30 ||
  c == Char.ofNat 31 || c == Char.ofNat 133 || c == Char.ofNat 160

/-- Python `s.strip(chars)`: remove every leading and trailing character
satisfying `p` (all layers, not just one). -/
def pyStripChars (p : Char → Bool) (cs : List Char) : List Char :=
  ((cs.dropWhile p).reverse.dropWhile p).reverse

/-- Python `s.strip()` (whitespace strip). -/
def pyStrip (cs : List Char) : List Char :=
  pyStripChars pyWhitespace cs

/-- Python `s.replace(c, "")` for a set of characters: remove every
occurrence. -/
def removeChars (p : Char → Bool) (cs : List Char) : List Char :=
  cs.filter (fun c => !(p c))

def isDigitChar (c : Char) : Bool :=
  '0' ≤ c && c ≤ '9'

def digitsToNat (cs : List Char) : Nat :=
  cs.foldl (fun n c => 10 * n + (c.toNat - 48)) 0

/-- Consume an optional leading sign; returns `(negative, rest)`. -/
def parseSign : List Char → Bool × List Char
  | '-' :: cs => (true, cs)
  | '+' :: cs => (false, cs)
  | cs => (false, cs)

/-- Split at the first exponent marker `e` / `E`, if any. -/
def splitExp : List Char → List Char × Option (List Char)
  | [] => ([], none)
  | c :: cs =>
    if c == 'e' || c == 'E' then ([], some cs)
    else
      let r := splitExp cs
      (c :: r.1, r.2)

/-- Split at the first `.`, if any. -/
def splitDot : List Char → List Char × Option (List Char)
  | [] => ([], none)
  | c :: cs =>
    if c == '.' then ([], some cs)
    else
      let r := splitDot cs
      (c :: r.1, r.2)

/-- Parse the mantissa `digits[.digits]` (at least one digit overall);
returns the digit value together with the number of fractional digits. -/
def parseMantissa (cs : List Char) : Option (Nat × Nat) :=
  let ip := (splitDot cs).1
  let fp := ((splitDot cs).2).getD []
  if (ip ++ fp).isEmpty then none
  else if (ip ++ fp).all isDigitChar then some (digitsToNat (ip ++ fp), fp.length)
  else none

/-- Parse an exponent `[sign]digits`. -/
def parseExpPart (cs : List Char) : Option Int :=
  let s := parseSign cs
  if s.2.isEmpty then none
  else if s.2.all isDigitChar then
    some (if s.1 then -(digitsToNat s.2 : Int) else (digitsToNat s.2 : Int))
  else none

/-- The rational `± m / 10 ^ f × 10 ^ e` denoted by a parsed decimal literal
(sign, mantissa digits, fractional length, exponent), built with `mkRat` so
that it evaluates by kernel reduction. -/
def decimalValue (neg : Bool) (m : Nat) (f : Nat) (e : Int) : ℚ :=
  let n : Int := if neg then -(m : Int) else (m : Int)
  if 0 ≤ e then mkRat (n * 10 ^ e.toNat) (10 ^ f)
  else mkRat n (10 ^ f * 10 ^ (-e).toNat)

/-- Modelled from the builtin Python `float(str)` on finite decimal literals:
optional surrounding whitespace, optional sign, ASCII digits with an optional
decimal point, optional `e`/`E` exponent.  The exact decimal value is kept
(machine doubles round to binary, but every value exercised by this
repository is stated in decimal, so `ℚ` is the faithful idealisation).  The
special spellings `inf`/`infinity`/`nan` (which have no value in `ℚ`) and
digit-group underscores are outside the model; no input considered here uses
them. -/
def pyFloatL (s : List Char) : Option ℚ :=
  let cs := pyStrip s
  let sg := parseSign cs
  let me := splitExp sg.2
  match parseMantissa me.1 with
  | none => none
  | some mf =>
    match me.2 with
    | none => some (decimalValue sg.1 mf.1 mf.2 0)
    | some ecs =>
      match parseExpPart ecs with
      | none => none
      | some e => some (decimalValue sg.1 mf.1 mf.2 e)

def pyFloat (s : String) : Option ℚ :=
  pyFloatL s.toList

/-- Modelled from the builtin Python `int(str)`: optional surrounding
whitespace, optional sign, nonempty ASCII digit string. -/
def pyInt (s : String) : Option Int :=
  let cs := pyStrip s.toList
  let sg := parseSign cs
  if sg.2.isEmpty then none
  else if sg.2.all isDigitChar then
    some (if sg.1 then -(digitsToNat sg.2 : Int) else (digitsToNat sg.2 : Int))
  else none

/-! ### The value normalizer (`parse_numeric_value`, src/scripts/import_data.py) -/

def doubleQuote : Char := '"'

def singleQuote : Char := '\x27'

/-- The character class of `re.sub(r"[$,()\x22]", "", value_str)`. -/
def currencyStrippedChar (c : Char) : Bool :=
  c == '$' || c == ',' || c == '(' || c == ')' || c == doubleQuote

/-- The quote stripping step `value_str.strip().strip(dq).strip(sq)` applied
after the initial whitespace strip: all surrounding straight double quotes
are removed, then all surrounding straight single quotes. -/
def stripQuotes (cs : List Char) : List Char :=
  pyStripChars (fun c => c == singleQuote) (pyStripChars (fun c => c == doubleQuote) cs)

/-- Body of `parse_numeric_value` after the initial guards and quote
stripping: the percentage branch, then the currency branch with
negative-by-parenthesis detection. -/
def pnvBody (t : List Char) : Option ℚ :=
  if t.isEmpty || t == ['-'] then none
  else if t.contains '%' then
    pyFloatL (pyStrip (removeChars (fun c => c == '%' || c == ',') t))
  else
    let isNeg := t.contains '(' && t.contains ')'
    let cleaned := pyStrip (removeChars currencyStrippedChar t)
    if cleaned.isEmpty || cleaned == ['-'] then none
    else
      match pyFloatL cleaned with
      | none => none
      | some q => some (if isNeg then -q else q)

/-- Translation of `parse_numeric_value` (src/scripts/import_data.py):
currency / percentage strings to an optional numeric value. -/
def parse_numeric_value (s : String) : Option ℚ :=
  if s == "" || s == "-" || (pyStrip s.toList).isEmpty then none
  else pnvBody (stripQuotes (pyStrip s.toList))

/-! ### Data model (src/app/models.py)

Rows are modelled without their integer surrogate ids: no endpoint exposes or
filters on them, and SQLAlchemy uniquing of the primary entity is keyed on the
primary key, which for `Company` is `duns`.  Columns that the importer (the
only writer) always populates with a string are modelled as `String`;
genuinely data-dependent nullable columns keep `Option`. -/

structure Company where
  duns : String
  physical_address : Option String
  telephone_number : Option String
  acn : Option String
  company_type : Option String
  primary_sic : Option String
deriving Repr, DecidableEq

/-- Row shape shared by `BalanceSheet`, `CashFlowStatement` and
`IncomeStatement` (structurally identical tables). -/
structure FinRecord where
  duns : String
  line_item : String
  year : Int
  value : Option String
  numeric_value : Option ℚ
deriving Repr, DecidableEq

structure Industry where
  duns : String
  industry_code : Option String
  industry_description : Option String
  is_primary : Bool
deriving Repr, DecidableEq

structure Operation where
  duns : String
  field_name : Option String
  field_value : Option String
deriving Repr, DecidableEq

structure Person where
  duns : String
  person_name : String
  title : Option String
  responsibilities : Option String
deriving Repr, DecidableEq

/-- The relational store: one list of rows per table, in insertion order. -/
structure DB where
  companies : List Company
  balance_sheets : List FinRecord
  cash_flow_statements : List FinRecord
  income_statements : List FinRecord
  industries : List Industry
  operations : List Operation
  people : List Person
deriving Repr, DecidableEq

/-! ### Query helpers -/

/-- Truthiness of an optional query string (Python `if param:`): absent and
empty are both falsy. -/
def pyTruthy : Option String → Bool
  | none => false
  | some s => s != ""

/-- Truthiness of an optional integer parameter (Python `if param:`): absent
and `0` are both falsy. -/
def pyTruthyInt : Option Int → Bool
  | none => false
  | some y => y != 0

def lowerList (s : String) : List Char :=
  s.toList.map Char.toLower

def containsSub (pat : List Char) : List Char → Bool
  | [] => pat.isEmpty
  | c :: t => pat.isPrefixOf (c :: t) || containsSub pat t

/-- `column.ilike(f"%{pat}%")`: case-insensitive substring match.  The filter
strings exercised here contain no SQL wildcard characters, so the pattern is
taken literally. -/
def icontains (hay pat : String) : Bool :=
  containsSub (lowerList pat) (lowerList hay)

/-- `ilike` on a nullable column: SQL `NULL` never matches. -/
def ilikeOpt (field : Option String) (pat : String) : Bool :=
  match field with
  | none => false
  | some s => icontains s pat

/-- `db.query(Company).filter(Company.duns == duns).first()`. -/
def findCompany (db : DB) (duns : String) : Option Company :=
  db.companies.find? (fun c => c.duns == duns)

/-- `HTTPException(status_code=404, detail=...)`. -/
inductive ApiError where
  | notFound (detail : String)
deriving Repr, DecidableEq

def notFoundDetail (duns : String) : String :=
  "Company with DUNS " ++ duns ++ " not found"

instance {ε α : Type} [DecidableEq ε] [DecidableEq α] :
    DecidableEq (Except ε α) := fun a b =>
  match a, b with
  | .error e, .error f =>
    if h : e = f then isTrue (by rw [h]) else isFalse (by simp [h])
  | .error _, .ok _ => isFalse (by simp)
  | .ok _, .error _ => isFalse (by simp)
  | .ok x, .ok y =>
    if h : x = y then isTrue (by rw [h]) else isFalse (by simp [h])

/-- SQLAlchemy legacy `Query.all()` uniquing of a full-entity result: rows
with an already-seen primary key (`duns`) are dropped, keeping the first
occurrence.  It is applied to the rows remaining after SQL-side
`OFFSET`/`LIMIT`. -/
def dedupByDunsAux (seen : List String) : List Company → List Company
  | [] => []
  | c :: cs =>
    if seen.contains c.duns then dedupByDunsAux seen cs
    else c :: dedupByDunsAux (c.duns :: seen) cs

def dedupByDuns (cs : List Company) : List Company :=
  dedupByDunsAux [] cs

/-! ### Companies router (src/app/routers/companies.py) -/

structure CompanyListResponse where
  total : Nat
  page : Nat
  page_size : Nat
  companies : List Company
deriving Repr, DecidableEq

/-- The row set of `db.query(Company)` after the optional
`join(Industry).filter(Industry.industry_code == code)`: an inner join, one
row per matching (company, classification) pair. -/
def companyRows (db : DB) (industry_code : Option String) : List Company :=
  if pyTruthy industry_code then
    db.companies.flatMap (fun c =>
      (db.industries.filter (fun i =>
        i.duns == c.duns && i.industry_code == industry_code)).map (fun _ => c))
  else db.companies

/-- The two text filters of `list_companies`, each applied only when truthy. -/
def companiesFiltered (rows : List Company)
    (company_type search : Option String) : List Company :=
  let rows :=
    if pyTruthy company_type then
      rows.filter (fun c => ilikeOpt c.company_type (company_type.getD ""))
    else rows
  if pyTruthy search then
    rows.filter (fun c =>
      ilikeOpt c.physical_address (search.getD "") ||
      ilikeOpt c.primary_sic (search.getD ""))
  else rows

/-- `list_companies`: filters, count, then offset/limit pagination. -/
def list_companies (db : DB) (page page_size : Nat)
    (industry_code company_type search : Option String) : CompanyListResponse :=
  let rows := companiesFiltered (companyRows db industry_code) company_type search
  let total := rows.length
  let offset := (page - 1) * page_size
  { total := total, page := page, page_size := page_size
    companies := dedupByDuns ((rows.drop offset).take page_size) }

structure CompanyDetailResponse where
  duns : String
  physical_address : Option String
  telephone_number : Option String
  acn : Option String
  company_type : Option String
  primary_sic : Option String
  industries : List Industry
  operations : List Operation
  people : List Person
deriving Repr, DecidableEq

/-- `get_company`: 404 when the key resolves to no company, else the company
row together with its dependent rows (relationship access). -/
def get_company (db : DB) (duns : String) : Except ApiError CompanyDetailResponse :=
  match findCompany db duns with
  | none => .error (.notFound (notFoundDetail duns))
  | some c =>
    .ok { duns := c.duns, physical_address := c.physical_address
          telephone_number := c.telephone_number, acn := c.acn
          company_type := c.company_type, primary_sic := c.primary_sic
          industries := db.industries.filter (fun i => i.duns == duns)
          operations := db.operations.filter (fun o => o.duns == duns)
          people := db.people.filter (fun p => p.duns == duns) }

structure IndustryListResponse where
  total : Nat
  industries : List Industry
deriving Repr, DecidableEq

def get_company_industries (db : DB) (duns : String) :
    Except ApiError IndustryListResponse :=
  match findCompany db duns with
  | none => .error (.notFound (notFoundDetail duns))
  | some _ =>
    let industries := db.industries.filter (fun i => i.duns == duns)
    .ok { total := industries.length, industries := industries }

structure OperationListResponse where
  total : Nat
  operations : List Operation
deriving Repr, DecidableEq

def get_company_operations (db : DB) (duns : String) :
    Except ApiError OperationListResponse :=
  match findCompany db duns with
  | none => .error (.notFound (notFoundDetail duns))
  | some _ =>
    let operations := db.operations.filter (fun o => o.duns == duns)
    .ok { total := operations.length, operations := operations }

structure PersonListResponse where
  total : Nat
  page : Nat
  page_size : Nat
  people : List Person
deriving Repr, DecidableEq

def get_company_people (db : DB) (duns : String) (page page_size : Nat) :
    Except ApiError PersonListResponse :=
  match findCompany db duns with
  | none => .error (.notFound (notFoundDetail duns))
  | some _ =>
    let q := db.people.filter (fun p => p.duns == duns)
    let offset := (page - 1) * page_size
    .ok { total := q.length, page := page, page_size := page_size
          people := (q.drop offset).take page_size }

/-! ### People router (src/app/routers/people.py) -/

/-- The three text filters of `list_people`, each applied only when truthy. -/
def peopleFiltered (rows : List Person)
    (title name responsibilities : Option String) : List Person :=
  let q :=
    if pyTruthy title then
      rows.filter (fun p => ilikeOpt p.title (title.getD ""))
    else rows
  let q :=
    if pyTruthy name then q.filter (fun p => icontains p.person_name (name.getD ""))
    else q
  if pyTruthy responsibilities then
    q.filter (fun p => ilikeOpt p.responsibilities (responsibilities.getD ""))
  else q

def list_people (db : DB) (page page_size : Nat)
    (title name responsibilities : Option String) : PersonListResponse :=
  let q := peopleFiltered db.people title name responsibilities
  let offset := (page - 1) * page_size
  { total := q.length, page := page, page_size := page_size
    people := (q.drop offset).take page_size }

/-! ### Financial statements router (src/app/routers/financials.py)

The balance-sheet, cash-flow and income-statement endpoints are textually
identical up to the table they read, so they are given by one generic
definition applied to the respective table. -/

structure FinListResponse where
  total : Nat
  duns : Option String
  year : Option Int
  records : List FinRecord
deriving Repr, DecidableEq

/-- The two optional filters shared by every financial-statement endpoint,
each applied only when the parameter is truthy (`if year:` / `if line_item:`). -/
def finFiltered (rows : List FinRecord) (year : Option Int)
    (line_item : Option String) : List FinRecord :=
  let rows :=
    if pyTruthyInt year then rows.filter (fun r => r.year == year.getD 0)
    else rows
  if pyTruthy line_item then
    rows.filter (fun r => icontains r.line_item (line_item.getD ""))
  else rows

/-- Flat listing (`list_balance_sheets` and friends): filter, count,
offset/limit slice. -/
def finListAll (rows : List FinRecord) (year : Option Int)
    (line_item : Option String) (limit offset : Nat) : FinListResponse :=
  let q := finFiltered rows year line_item
  { total := q.length, duns := none, year := year
    records := (q.drop offset).take limit }

def list_balance_sheets (db : DB) (year : Option Int) (line_item : Option String)
    (limit offset : Nat) : FinListResponse :=
  finListAll db.balance_sheets year line_item limit offset

def list_cash_flows (db : DB) (year : Option Int) (line_item : Option String)
    (limit offset : Nat) : FinListResponse :=
  finListAll db.cash_flow_statements year line_item limit offset

def list_income_statements (db : DB) (year : Option Int) (line_item : Option String)
    (limit offset : Nat) : FinListResponse :=
  finListAll db.income_statements year line_item limit offset

/-- Binary-collation text comparison, as SQLite ORDER BY applies to TEXT:
lexicographic on codepoints, which coincides with UTF-8 byte order. -/
def charListLe : List Char → List Char → Bool
  | [], _ => true
  | _ :: _, [] => false
  | a :: as, b :: bs =>
    if a < b then true else if b < a then false else charListLe as bs

/-- The `ORDER BY year DESC, line_item ASC` sort key of the per-company
listings. -/
def finOrder (a b : FinRecord) : Prop :=
  b.year < a.year ∨
    (a.year = b.year ∧ charListLe a.line_item.toList b.line_item.toList = true)

instance : DecidableRel finOrder := fun a b =>
  inferInstanceAs
    (Decidable (b.year < a.year ∨
      (a.year = b.year ∧ charListLe a.line_item.toList b.line_item.toList = true)))

instance : IsTotal FinRecord finOrder where
  total a b := by
    have hto : ∀ as bs : List Char,
        charListLe as bs = true ∨ charListLe bs as = true := by
      intro as
      induction as with
      | nil => exact fun bs => Or.inl rfl
      | cons a as ih =>
        intro bs
        cases bs with
        | nil => exact Or.inr rfl
        | cons b bs =>
          rcases lt_trichotomy a b with h | h | h
          · left; unfold charListLe; rw [if_pos h]
          · subst h
            rcases ih bs with h2 | h2
            · left; unfold charListLe
              rw [if_neg (lt_irrefl a), if_neg (lt_irrefl a)]
              exact h2
            · right; unfold charListLe
              rw [if_neg (lt_irrefl a), if_neg (lt_irrefl a)]
              exact h2
          · right; unfold charListLe; rw [if_pos h]
    unfold finOrder
    rcases lt_trichotomy a.year b.year with h | h | h
    · exact Or.inr (Or.inl h)
    · rcases hto a.line_item.toList b.line_item.toList with h2 | h2
      · exact Or.inl (Or.inr ⟨h, h2⟩)
      · exact Or.inr (Or.inr ⟨h.symm, h2⟩)
    · exact Or.inl (Or.inl h)

instance : IsTrans FinRecord finOrder where
  trans a b c hab hbc := by
    have htr : ∀ as bs cs : List Char,
        charListLe as bs = true → charListLe bs cs = true →
        charListLe as cs = true := by
      intro as
      induction as with
      | nil => exact fun _ _ _ _ => rfl
      | cons a as ih =>
        intro bs cs h1 h2
        cases bs with
        | nil => exact absurd h1 (by simp [charListLe])
        | cons b bs =>
          cases cs with
          | nil => exact absurd h2 (by simp [charListLe])
          | cons c cs =>
            unfold charListLe at h1 h2 ⊢
            by_cases hab : a < b
            · by_cases hbc : b < c
              · rw [if_pos (hab.trans hbc)]
              · by_cases hcb : c < b
                · rw [if_neg hbc, if_pos hcb] at h2; exact absurd h2 (by simp)
                · have hbc2 : b = c :=
                    le_antisymm (not_lt.mp hcb) (not_lt.mp hbc)
                  rw [if_pos (hbc2 ▸ hab)]
            · by_cases hba : b < a
              · rw [if_neg hab, if_pos hba] at h1; exact absurd h1 (by simp)
              · have hab2 : a = b :=
                  le_antisymm (not_lt.mp hba) (not_lt.mp hab)
                subst hab2
                rw [if_neg (lt_irrefl a), if_neg (lt_irrefl a)] at h1
                by_cases hac : a < c
                · rw [if_pos hac]
                · by_cases hca : c < a
                  · rw [if_neg hac, if_pos hca] at h2
                    exact absurd h2 (by simp)
                  · rw [if_neg hac, if_neg hca] at h2 ⊢
                    exact ih bs cs h1 h2
    unfold finOrder at *
    rcases hab with h1 | ⟨e1, l1⟩
    · rcases hbc with h2 | ⟨e2, _⟩
      · exact Or.inl (h2.trans h1)
      · exact Or.inl (e2 ▸ h1)
    · rcases hbc with h2 | ⟨e2, l2⟩
      · exact Or.inl (e1 ▸ h2)
      · exact Or.inr ⟨e1.trans e2, htr _ _ _ l1 l2⟩

/-- Per-company listing (`get_company_balance_sheet` and friends): 404 check,
filter by key and optional filters, then the `ORDER BY` sort.  SQL prescribes
only the sort key, so the (stable) insertion sort stands for the engine
order. -/
def finListCompany (db : DB) (rows : List FinRecord) (duns : String)
    (year : Option Int) (line_item : Option String) :
    Except ApiError FinListResponse :=
  match findCompany db duns with
  | none => .error (.notFound (notFoundDetail duns))
  | some _ =>
    let q := finFiltered (rows.filter (fun r => r.duns == duns)) year line_item
    let sorted := List.insertionSort finOrder q
    .ok { total := sorted.length, duns := some duns, year := year
          records := sorted }

def get_company_balance_sheet (db : DB) (duns : String) (year : Option Int)
    (line_item : Option String) : Except ApiError FinListResponse :=
  finListCompany db db.balance_sheets duns year line_item

def get_company_cash_flow (db : DB) (duns : String) (year : Option Int)
    (line_item : Option String) : Except ApiError FinListResponse :=
  finListCompany db db.cash_flow_statements duns year line_item

def get_company_income_statement (db : DB) (duns : String) (year : Option Int)
    (line_item : Option String) : Except ApiError FinListResponse :=
  finListCompany db db.income_statements duns year line_item

/-! ### Industries router (src/app/routers/industries.py) -/

def list_industries (db : DB) (code description : Option String)
    (primary_only : Bool) : IndustryListResponse :=
  let q := db.industries
  let q :=
    if pyTruthy code then q.filter (fun i => i.industry_code == code)
    else q
  let q :=
    if pyTruthy description then
      q.filter (fun i => ilikeOpt i.industry_description (description.getD ""))
    else q
  let q := if primary_only then q.filter (fun i => i.is_primary) else q
  { total := q.length, industries := q }

structure CodeCount where
  code : String
  description : Option String
  company_count : Nat
deriving Repr, DecidableEq

structure CodeListResponse where
  total : Nat
  codes : List CodeCount
deriving Repr, DecidableEq

/-- The rows admitted by `filter(code.isnot(None), code != "")`. -/
def codeRows (db : DB) : List Industry :=
  db.industries.filter (fun i =>
    i.industry_code != (none : Option String) && i.industry_code != some "")

/-- The `GROUP BY (industry_code, industry_description)` keys.  SQL leaves
the pre-`ORDER BY` group order unspecified; `dedup` fixes one enumeration of
the distinct keys, which is harmless because the result is subsequently
sorted and every property proved below is stable under reordering ties. -/
def codeKeys (db : DB) : List (String × Option String) :=
  ((codeRows db).map (fun i =>
    (i.industry_code.getD "", i.industry_description))).dedup

/-- `COUNT(DISTINCT duns)` within one group. -/
def codeGroupCount (db : DB) (k : String × Option String) : Nat :=
  (((codeRows db).filter (fun i =>
    i.industry_code == some k.1 && i.industry_description == k.2)).map
      (fun i => i.duns)).dedup.length

/-- `list_industry_codes`: per-(code, description) groups with
distinct-company counts, ordered by count descending. -/
def list_industry_codes (db : DB) : CodeListResponse :=
  let groups := (codeKeys db).map (fun k =>
    { code := k.1, description := k.2
      company_count := codeGroupCount db k : CodeCount })
  let sorted :=
    List.insertionSort (fun a b => b.company_count ≤ a.company_count) groups
  { total := sorted.length, codes := sorted }

/-! ### Importer (src/scripts/import_data.py)

A source tree is one list of files per entity directory; a file is its stem
(the business key the file is named by) together with its parsed CSV rows.
`DictReader` presents every row with the header fields of its file, so a row
is modelled as a record of the per-entity columns. -/

def pyStripStr (s : String) : String :=
  (pyStrip s.toList).asString

structure InfoCsvRow where
  field : String
  value : String
deriving Repr, DecidableEq

structure FinCsvRow where
  line_item : String
  year : String
  value : String
deriving Repr, DecidableEq

structure IndustryCsvRow where
  industry_code : String
  industry_description : String
  is_primary : String
deriving Repr, DecidableEq

structure OpCsvRow where
  field_name : String
  field_value : String
deriving Repr, DecidableEq

structure PersonCsvRow where
  person_name : String
  title : String
  responsibilities : String
deriving Repr, DecidableEq

structure Source where
  company_info : List (String × List InfoCsvRow)
  balance_sheet : List (String × List FinCsvRow)
  cash_flow_statement : List (String × List FinCsvRow)
  income_statement : List (String × List FinCsvRow)
  industries : List (String × List IndustryCsvRow)
  operations : List (String × List OpCsvRow)
  people : List (String × List PersonCsvRow)
deriving Repr, DecidableEq

/-- One `field,value` row of a company-info file: the matched field is set to
the stripped value, later rows for the same field overwriting earlier ones. -/
def applyInfoRow (c : Company) (row : InfoCsvRow) : Company :=
  let field := pyStripStr row.field
  let value := pyStripStr row.value
  if field == "Physical Address" then { c with physical_address := some value }
  else if field == "Telephone Number" then { c with telephone_number := some value }
  else if field == "ACN" then { c with acn := some value }
  else if field == "Company Type" then { c with company_type := some value }
  else if field == "Primary SIC" then { c with primary_sic := some value }
  else c

def parseCompanyFile (stem : String) (rows : List InfoCsvRow) : Company :=
  rows.foldl applyInfoRow
    { duns := stem, physical_address := none, telephone_number := none
      acn := none, company_type := none, primary_sic := none }

/-- Keyed insertion shared by the `companies[duns] = ...` dict build and by
`session.merge`: an existing row under the same key is overwritten in place
(every field, keeping its position), otherwise the row is appended. -/
def upsertByDuns (store : List Company) (c : Company) : List Company :=
  if store.any (fun o => o.duns == c.duns) then
    store.map (fun o => if o.duns == c.duns then c else o)
  else store ++ [c]

/-- The `companies` dict of `import_company_info`, in key insertion order. -/
def parsedCompanies (files : List (String × List InfoCsvRow)) : List Company :=
  files.foldl (fun acc f => upsertByDuns acc (parseCompanyFile f.1 f.2)) []

/-- `import_company_info`: merge every parsed company into the store and
return the store together with the valid key set (`companies.keys()`). -/
def import_company_info (store : List Company)
    (files : List (String × List InfoCsvRow)) : List Company × List String :=
  let parsed := parsedCompanies files
  (parsed.foldl upsertByDuns store, parsed.map (fun c => c.duns))

/-- One financial-statement CSV row: a row whose year field does not parse as
an integer is skipped. -/
def parseFinRow (duns : String) (row : FinCsvRow) : Option FinRecord :=
  match pyInt row.year with
  | none => none
  | some y =>
    some { duns := duns, line_item := row.line_item, year := y
           value := some row.value
           numeric_value := parse_numeric_value row.value }

/-- Shape shared by every dependent-table import: every file whose stem is
outside the valid key set is skipped, the parseable rows of the remaining
files are appended per file. -/
def importDependent {ρ α : Type} (parseFile : String → List ρ → List α)
    (store : List α) (files : List (String × List ρ)) (valid : List String) :
    List α :=
  files.foldl (fun st f =>
    if valid.contains f.1 then st ++ parseFile f.1 f.2 else st) store

/-- `import_balance_sheets` / `import_cash_flows` / `import_income_statements`
(textually identical). -/
def importFinancialTable (store : List FinRecord)
    (files : List (String × List FinCsvRow)) (valid : List String) :
    List FinRecord :=
  importDependent (fun stem rows => rows.filterMap (parseFinRow stem))
    store files valid

/-- `bool(int(is_primary))` with `False` on a parse failure. -/
def parseIndustryRow (duns : String) (row : IndustryCsvRow) : Industry :=
  { duns := duns, industry_code := some row.industry_code
    industry_description := some row.industry_description
    is_primary :=
      match pyInt row.is_primary with
      | some n => n != 0
      | none => false }

def importIndustries (store : List Industry)
    (files : List (String × List IndustryCsvRow)) (valid : List String) :
    List Industry :=
  importDependent (fun stem rows => rows.map (parseIndustryRow stem))
    store files valid

def importOperations (store : List Operation)
    (files : List (String × List OpCsvRow)) (valid : List String) :
    List Operation :=
  importDependent (fun stem rows => rows.map (fun r =>
      { duns := stem, field_name := some r.field_name
        field_value := some r.field_value : Operation }))
    store files valid

def importPeople (store : List Person)
    (files : List (String × List PersonCsvRow)) (valid : List String) :
    List Person :=
  importDependent (fun stem rows => rows.map (fun r =>
      { duns := stem, person_name := r.person_name, title := some r.title
        responsibilities := some r.responsibilities : Person }))
    store files valid

/-- `main`: company info first (producing the valid key set), then every
dependent table filtered against that key set. -/
def runImport (db : DB) (src : Source) : DB :=
  let ci := import_company_info db.companies src.company_info
  { companies := ci.1
    balance_sheets := importFinancialTable db.balance_sheets src.balance_sheet ci.2
    cash_flow_statements :=
      importFinancialTable db.cash_flow_statements src.cash_flow_statement ci.2
    income_statements :=
      importFinancialTable db.income_statements src.income_statement ci.2
    industries := importIndustries db.industries src.industries ci.2
    operations := importOperations db.operations src.operations ci.2
    people := importPeople db.people src.people ci.2 }

/-! ### Shared example data -/

def emptyDB : DB :=
  { companies := [], balance_sheets := [], cash_flow_statements := []
    income_statements := [], industries := [], operations := [], people := [] }

def companyOf (duns : String) : Company :=
  { duns := duns, physical_address := none, telephone_number := none
    acn := none, company_type := none, primary_sic := none }

def finRec (duns line_item : String) (year : Int) : FinRecord :=
  { duns := duns, line_item := line_item, year := year
    value := none, numeric_value := none }

def indRow (duns code desc : String) : Industry :=
  { duns := duns, industry_code := some code
    industry_description := some desc, is_primary := false }

/-- One company with classification code 1234 on two rows. -/
def dbC1 : DB :=
  { emptyDB with
    companies := [companyOf "000000001"]
    industries := [indRow "000000001" "1234" "Widgets",
                   indRow "000000001" "1234" "Widget mfg"] }

/-- Two people under one key. -/
def dbC4 : DB :=
  { emptyDB with
    people := [{ duns := "1", person_name := "A", title := some "Director"
                 responsibilities := none },
               { duns := "1", person_name := "B", title := some "Secretary"
                 responsibilities := none }] }

/-- Dependent rows under key 999888777 without a company row. -/
def dbC5 : DB :=
  { emptyDB with
    companies := [companyOf "111111111"]
    balance_sheets := [finRec "999888777" "Cash" 2024]
    cash_flow_statements := [finRec "999888777" "Operating" 2024]
    income_statements := [finRec "999888777" "Revenue" 2024]
    industries := [indRow "999888777" "7389" "Services"]
    operations := [{ duns := "999888777", field_name := some "Line of Business"
                     field_value := some "Consulting" }]
    people := [{ duns := "999888777", person_name := "A Person"
                 title := some "Director", responsibilities := none }] }

/-- Balance-sheet rows over years {2023, 2024} and items {Cash, Debt}. -/
def dbC8 : DB :=
  { emptyDB with
    companies := [companyOf "1"]
    balance_sheets := [finRec "1" "Debt" 2023, finRec "1" "Cash" 2024,
                       finRec "1" "Debt" 2024, finRec "1" "Cash" 2023] }

/-- One classification code under two distinct descriptions. -/
def dbC9 : DB :=
  { emptyDB with
    industries := [indRow "1" "1234" "Widgets",
                   indRow "2" "1234" "Widget services"] }

def storeC6 : List Company :=
  [{ companyOf "000000001" with acn := some "A" }]

def filesC6 : List (String × List InfoCsvRow) :=
  [("000000001", [{ field := "ACN", value := "B" }])]

/-- The company parsed from `filesC6`. -/
def pcC6 : Company :=
  { duns := "000000001", physical_address := none, telephone_number := none,
    acn := some "B", company_type := none, primary_sic := none }

/-- A source whose balance-sheet directory holds a file for the unknown key
999999999 next to one for the imported key 111111111. -/
def srcC7 : Source :=
  { company_info := [("111111111", [])],
    balance_sheet :=
      [("999999999", [{ line_item := "Cash", year := "2024",
                        value := "$1,000" }]),
       ("111111111", [{ line_item := "Cash", year := "2024",
                        value := "$1,000" }])],
    cash_flow_statement := [], income_statement := [],
    industries := [], operations := [], people := [] }

/-! ### Specification predicates -/

/-- Characters that the normalizer treats as plain: not whitespace, not one
of the currency-stripped characters, not a straight single quote and not a
percent sign.  Digits, signs, dots and exponent letters all qualify. -/
def plainChar (c : Char) : Bool :=
  !(pyWhitespace c) && !(currencyStrippedChar c) && !(c == singleQuote) &&
    !(c == '%')

/-- The pagination contract of the spec, relative to a filtered collection:
`total` is the unpaginated count, the page is the
`[offset, offset + size)` slice, the page never exceeds the size or the
total, and a slice beyond the data is empty. -/
def sliceSpec {α : Type} (filtered : List α) (total : Nat)
    (pageData : List α) (size offset : Nat) : Prop :=
  total = filtered.length ∧
  pageData = (filtered.drop offset).take size ∧
  pageData.length ≤ size ∧
  pageData.length ≤ total ∧
  (filtered.length ≤ offset → pageData = [])

/-- Referential integrity: every dependent row references an existing
company. -/
def refIntegrity (db : DB) : Prop :=
  (∀ r ∈ db.balance_sheets, ∃ c ∈ db.companies, c.duns = r.duns) ∧
  (∀ r ∈ db.cash_flow_statements, ∃ c ∈ db.companies, c.duns = r.duns) ∧
  (∀ r ∈ db.income_statements, ∃ c ∈ db.companies, c.duns = r.duns) ∧
  (∀ r ∈ db.industries, ∃ c ∈ db.companies, c.duns = r.duns) ∧
  (∀ r ∈ db.operations, ∃ c ∈ db.companies, c.duns = r.duns) ∧
  (∀ r ∈ db.people, ∃ c ∈ db.companies, c.duns = r.duns)

/-! ### Helper lemmas -/

theorem pyFloatL_nil : pyFloatL [] = none := by decide

theorem pyFloatL_dash : pyFloatL ['-'] = none := by decide

theorem dropWhile_eq_self_of_false {p : Char → Bool} {l : List Char}
    (h : ∀ c ∈ l, p c = false) : l.dropWhile p = l := by
  cases l with
  | nil => rfl
  | cons c t =>
    rw [List.dropWhile_cons, h c (List.mem_cons_self c t)]
    simp

theorem pyStripChars_id {p : Char → Bool} {l : List Char}
    (h : ∀ c ∈ l, p c = false) : pyStripChars p l = l := by
  unfold pyStripChars
  rw [dropWhile_eq_self_of_false h,
    dropWhile_eq_self_of_false (fun c hc => h c (List.mem_reverse.mp hc)),
    List.reverse_reverse]

theorem pyStripChars_wrap {p : Char → Bool} {q : Char} (hq : p q = true)
    {l : List Char} (hne : l ≠ []) (h : ∀ c ∈ l, p c = false) :
    pyStripChars p (q :: (l ++ [q])) = l := by
  obtain ⟨c, l', rfl⟩ := List.exists_cons_of_ne_nil hne
  unfold pyStripChars
  rw [List.dropWhile_cons, hq]
  simp only [if_true]
  rw [List.cons_append, List.dropWhile_cons,
    h c (List.mem_cons_self c l')]
  simp only [Bool.false_eq_true, if_false]
  have hrev : (c :: (l' ++ [q])).reverse = q :: (c :: l').reverse := by
    rw [← List.cons_append, List.reverse_append]; rfl
  rw [hrev, List.dropWhile_cons, hq]
  simp only [if_true]
  rw [dropWhile_eq_self_of_false
    (fun x hx => h x (List.mem_reverse.mp hx)), List.reverse_reverse]

theorem removeChars_id {p : Char → Bool} {l : List Char}
    (h : ∀ c ∈ l, p c = false) : removeChars p l = l :=
  List.filter_eq_self.mpr (fun c hc => by rw [h c hc]; rfl)

theorem dedupByDunsAux_sublist (seen : List String) (l : List Company) :
    (dedupByDunsAux seen l).Sublist l := by
  induction l generalizing seen with
  | nil => simp [dedupByDunsAux]
  | cons c cs ih =>
    unfold dedupByDunsAux
    by_cases h : seen.contains c.duns
    · rw [if_pos h]; exact (ih seen).cons c
    · rw [if_neg h]; exact (ih (c.duns :: seen)).cons₂ c

theorem dedupByDunsAux_spec (seen : List String) (l : List Company) :
    (∀ c ∈ dedupByDunsAux seen l, seen.contains c.duns = false) ∧
      (dedupByDunsAux seen l).Pairwise (fun a b => a.duns ≠ b.duns) := by
  induction l generalizing seen with
  | nil => simp [dedupByDunsAux]
  | cons c cs ih =>
    unfold dedupByDunsAux
    by_cases h : seen.contains c.duns
    · rw [if_pos h]; exact ih seen
    · rw [if_neg h]
      constructor
      · intro x hx
        rcases List.mem_cons.mp hx with rfl | hx
        · exact Bool.not_eq_true _ ▸ h
        · have := (ih (c.duns :: seen)).1 x hx
          simp only [List.contains_cons, Bool.or_eq_false_iff] at this
          exact this.2
      · refine List.Pairwise.cons ?_ (ih (c.duns :: seen)).2
        intro x hx
        have := (ih (c.duns :: seen)).1 x hx
        simp only [List.contains_cons, Bool.or_eq_false_iff, beq_eq_false_iff_ne] at this
        exact fun e => this.1 (e ▸ rfl)

theorem dedupByDunsAux_eq_self (seen : List String) (l : List Company)
    (h1 : ∀ c ∈ l, seen.contains c.duns = false)
    (h2 : l.Pairwise (fun a b => a.duns ≠ b.duns)) :
    dedupByDunsAux seen l = l := by
  induction l generalizing seen with
  | nil => rfl
  | cons c cs ih =>
    unfold dedupByDunsAux
    rw [if_neg (by rw [h1 c (List.mem_cons_self c cs)]; simp)]
    congr 1
    apply ih
    · intro x hx
      simp only [List.contains_cons, Bool.or_eq_false_iff, beq_eq_false_iff_ne]
      exact ⟨fun e => (List.pairwise_cons.mp h2).1 x hx e.symm,
        h1 x (List.mem_cons_of_mem c hx)⟩
    · exact (List.pairwise_cons.mp h2).2

theorem mem_dedupByDuns {l : List Company} {c : Company}
    (h : c ∈ dedupByDuns l) : c ∈ l :=
  (dedupByDunsAux_sublist [] l).mem h

theorem dedupByDuns_pairwise (l : List Company) :
    (dedupByDuns l).Pairwise (fun a b => a.duns ≠ b.duns) :=
  (dedupByDunsAux_spec [] l).2

theorem dedupByDuns_eq_self {l : List Company}
    (h : l.Pairwise (fun a b => a.duns ≠ b.duns)) : dedupByDuns l = l :=
  dedupByDunsAux_eq_self [] l (by simp) h

theorem mem_companyRows_some {db : DB} {code : String} {c : Company}
    (h : c ∈ companyRows db (some code)) (hcode : code ≠ "") :
    c ∈ db.companies ∧
      ∃ i ∈ db.industries, i.duns = c.duns ∧ i.industry_code = some code := by
  unfold companyRows at h
  rw [if_pos (by simpa [pyTruthy] using hcode)] at h
  rcases List.mem_flatMap.mp h with ⟨c', hc', hmem⟩
  rcases List.mem_map.mp hmem with ⟨i, hi, rfl⟩
  rcases List.mem_filter.mp hi with ⟨himem, hcond⟩
  simp only [Bool.and_eq_true, beq_iff_eq] at hcond
  exact ⟨hc', i, himem, hcond.1, hcond.2⟩

theorem contains_eq_false_of_not_mem {l : List Char} {a : Char}
    (h : a ∉ l) : l.contains a = false := by
  simpa using h

theorem plainChar_spec {c : Char} (h : plainChar c = true) :
    pyWhitespace c = false ∧ currencyStrippedChar c = false ∧
      c ≠ singleQuote ∧ c ≠ '%' ∧ c ≠ doubleQuote ∧ c ≠ '(' ∧ c ≠ ')' := by
  simp only [plainChar, Bool.and_eq_true, Bool.not_eq_true', beq_eq_false_iff_ne,
    ne_eq] at h
  refine ⟨h.1.1.1, h.1.1.2, h.1.2, h.2, ?_, ?_, ?_⟩ <;>
    · intro e
      rw [e] at h
      exact absurd h.1.1.2 (by decide)

theorem pnvBody_plain {l : List Char} {q : ℚ}
    (hparse : pyFloatL l = some q)
    (hplain : ∀ c ∈ l, plainChar c = true) :
    pnvBody l = some q := by
  have hl_ne : l ≠ [] := by
    intro e; rw [e, pyFloatL_nil] at hparse; exact Option.noConfusion hparse
  have hl_dash : l ≠ ['-'] := by
    intro e; rw [e, pyFloatL_dash] at hparse; exact Option.noConfusion hparse
  have hws : ∀ c ∈ l, pyWhitespace c = false :=
    fun c hc => (plainChar_spec (hplain c hc)).1
  have hcur : ∀ c ∈ l, currencyStrippedChar c = false :=
    fun c hc => (plainChar_spec (hplain c hc)).2.1
  have hguard : (l.isEmpty || l == ['-']) = false := by
    rw [Bool.or_eq_false_iff]
    exact ⟨List.isEmpty_eq_false.mpr hl_ne, beq_eq_false_iff_ne.mpr hl_dash⟩
  have hpct : l.contains '%' = false :=
    contains_eq_false_of_not_mem
      (fun hm => (plainChar_spec (hplain _ hm)).2.2.2.1 rfl)
  have hlp : l.contains '(' = false :=
    contains_eq_false_of_not_mem
      (fun hm => (plainChar_spec (hplain _ hm)).2.2.2.2.2.1 rfl)
  have hrp : l.contains ')' = false :=
    contains_eq_false_of_not_mem
      (fun hm => (plainChar_spec (hplain _ hm)).2.2.2.2.2.2 rfl)
  have hclean : pyStrip (removeChars currencyStrippedChar l) = l := by
    rw [removeChars_id hcur]; exact pyStripChars_id hws
  simp only [pnvBody, hguard, Bool.false_eq_true, if_false, hpct, hlp, hrp,
    hclean, hparse, Bool.and_self, Bool.false_and]

theorem parse_numeric_value_wrapped (qc : Char)
    (hqc : qc = doubleQuote ∨ qc = singleQuote)
    {s : String} {q : ℚ}
    (hparse : pyFloatL s.toList = some q)
    (hplain : ∀ c ∈ s.toList, plainChar c = true) :
    parse_numeric_value ((⟨[qc]⟩ : String) ++ s ++ ⟨[qc]⟩) = some q := by
  have hl_ne : s.toList ≠ [] := by
    intro e; rw [e, pyFloatL_nil] at hparse; exact Option.noConfusion hparse
  have hl_dash : s.toList ≠ ['-'] := by
    intro e; rw [e, pyFloatL_dash] at hparse; exact Option.noConfusion hparse
  have hwdata : ((⟨[qc]⟩ : String) ++ s ++ ⟨[qc]⟩).toList =
      qc :: (s.toList ++ [qc]) := by
    show ([qc] ++ s.data ++ [qc] : List Char) = qc :: (s.data ++ [qc])
    simp
  have hchain_ws : ∀ c ∈ qc :: (s.toList ++ [qc]), pyWhitespace c = false := by
    intro c hc
    rcases List.mem_cons.mp hc with rfl | hc
    · rcases hqc with rfl | rfl <;> decide
    · rcases List.mem_append.mp hc with hc | hc
      · exact (plainChar_spec (hplain c hc)).1
      · rw [List.mem_singleton.mp hc]
        rcases hqc with rfl | rfl <;> decide
  have h1 : pyStrip (((⟨[qc]⟩ : String) ++ s ++ ⟨[qc]⟩).toList) =
      qc :: (s.toList ++ [qc]) := by
    rw [hwdata]; exact pyStripChars_id hchain_ws
  have hne_empty : (⟨[qc]⟩ : String) ++ s ++ ⟨[qc]⟩ ≠ "" := by
    intro h
    have := congrArg String.toList h
    rw [hwdata] at this
    exact List.noConfusion this
  have hne_dash : (⟨[qc]⟩ : String) ++ s ++ ⟨[qc]⟩ ≠ "-" := by
    intro h
    have := congrArg String.toList h
    rw [hwdata] at this
    simp at this
  have hguard : (((⟨[qc]⟩ : String) ++ s ++ ⟨[qc]⟩) == "" ||
      ((⟨[qc]⟩ : String) ++ s ++ ⟨[qc]⟩) == "-" ||
      (pyStrip (((⟨[qc]⟩ : String) ++ s ++ ⟨[qc]⟩).toList)).isEmpty) = false := by
    rw [h1]
    simp [hne_empty, hne_dash]
  have hdq_l : ∀ c ∈ s.toList, (c == doubleQuote) = false := by
    intro c hc
    exact beq_eq_false_iff_ne.mpr (plainChar_spec (hplain c hc)).2.2.2.2.1
  have hsq_l : ∀ c ∈ s.toList, (c == singleQuote) = false := by
    intro c hc
    exact beq_eq_false_iff_ne.mpr (plainChar_spec (hplain c hc)).2.2.1
  have hstrip : stripQuotes (pyStrip (((⟨[qc]⟩ : String) ++ s ++
      ⟨[qc]⟩).toList)) = s.toList := by
    rw [h1]
    unfold stripQuotes
    rcases hqc with rfl | rfl
    · rw [pyStripChars_wrap (by decide) hl_ne hdq_l]
      exact pyStripChars_id hsq_l
    · have hall : ∀ c ∈ singleQuote :: (s.toList ++ [singleQuote]),
          (c == doubleQuote) = false := by
        intro c hc
        rcases List.mem_cons.mp hc with rfl | hc
        · decide
        · rcases List.mem_append.mp hc with hc | hc
          · exact hdq_l c hc
          · rw [List.mem_singleton.mp hc]; decide
      rw [@pyStripChars_id (fun c => c == doubleQuote) _ hall]
      exact pyStripChars_wrap (by decide) hl_ne hsq_l
  simp only [parse_numeric_value, hguard, Bool.false_eq_true, if_false, hstrip]
  exact pnvBody_plain hparse hplain

theorem slice_sublist {α : Type} (l : List α) (o n : Nat) :
    ((l.drop o).take n).Sublist l :=
  (List.take_sublist _ _).trans (List.drop_sublist _ _)

theorem mem_upsert {st : List Company} {c x : Company}
    (hx : x ∈ upsertByDuns st c) :
    x = c ∨ (x ∈ st ∧ x.duns ≠ c.duns) := by
  unfold upsertByDuns at hx
  split at hx
  · rcases List.mem_map.mp hx with ⟨o, ho, hox⟩
    by_cases h : o.duns = c.duns
    · left; rw [← hox, if_pos (beq_iff_eq.mpr h)]
    · right
      rw [← hox, if_neg (by simpa using h)]
      exact ⟨ho, h⟩
  · rcases List.mem_append.mp hx with h | h
    · rename_i hany
      right
      refine ⟨h, fun e => ?_⟩
      rw [Bool.not_eq_true] at hany
      have := List.any_eq_false.mp hany x h
      simp [e] at this
    · left; exact List.mem_singleton.mp h

theorem mem_upsert_of_ne {st : List Company} {c x : Company}
    (hx : x ∈ st) (hne : x.duns ≠ c.duns) : x ∈ upsertByDuns st c := by
  unfold upsertByDuns
  split
  · exact List.mem_map.mpr ⟨x, hx, by rw [if_neg (by simpa using hne)]⟩
  · exact List.mem_append.mpr (Or.inl hx)

theorem exists_key_upsert (st : List Company) (c : Company) :
    ∃ x ∈ upsertByDuns st c, x.duns = c.duns := by
  unfold upsertByDuns
  split
  · rename_i hany
    rcases List.any_eq_true.mp hany with ⟨o, ho, hkey⟩
    exact ⟨c, List.mem_map.mpr ⟨o, ho, by rw [if_pos hkey]⟩, rfl⟩
  · exact ⟨c, List.mem_append.mpr (Or.inr (List.mem_singleton.mpr rfl)), rfl⟩

theorem all_key_upsert {st : List Company} {c x : Company}
    (hx : x ∈ upsertByDuns st c) (hk : x.duns = c.duns) : x = c := by
  rcases mem_upsert hx with h | ⟨_, hne⟩
  · exact h
  · exact absurd hk hne

theorem duns_upsert_map (c o : Company) :
    (if o.duns == c.duns then c else o).duns = o.duns := by
  by_cases ho : o.duns = c.duns
  · rw [if_pos (beq_iff_eq.mpr ho)]; exact ho.symm
  · rw [if_neg (by simpa using ho)]

theorem upsert_pairwise {st : List Company} {c : Company}
    (h : st.Pairwise (fun a b => a.duns ≠ b.duns)) :
    (upsertByDuns st c).Pairwise (fun a b => a.duns ≠ b.duns) := by
  unfold upsertByDuns
  split
  · rw [List.pairwise_map]
    refine h.imp (fun {a b} hab e => hab ?_)
    have e' : (if a.duns == c.duns then c else a).duns =
        (if b.duns == c.duns then c else b).duns := e
    rwa [duns_upsert_map, duns_upsert_map] at e'
  · rename_i hany
    rw [Bool.not_eq_true] at hany
    apply List.pairwise_append.mpr
    refine ⟨h, List.pairwise_singleton _ _, ?_⟩
    intro a ha b hb
    rw [List.mem_singleton.mp hb]
    intro e
    have := List.any_eq_false.mp hany a ha
    simp [e] at this

theorem upsert_eq_self {st : List Company} {c : Company}
    (hex : ∃ x ∈ st, x.duns = c.duns)
    (hall : ∀ x ∈ st, x.duns = c.duns → x = c) :
    upsertByDuns st c = st := by
  unfold upsertByDuns
  rcases hex with ⟨x, hx, hkey⟩
  have hany : (st.any fun o => o.duns == c.duns) = true :=
    List.any_eq_true.mpr ⟨x, hx, beq_iff_eq.mpr hkey⟩
  rw [hany, if_pos rfl]
  calc st.map (fun o => if o.duns == c.duns then c else o)
      = st.map id := by
        apply List.map_congr_left
        intro o ho
        by_cases hko : o.duns = c.duns
        · rw [if_pos (beq_iff_eq.mpr hko)]
          exact (hall o ho hko).symm
        · rw [if_neg (by simpa using hko)]; rfl
    _ = st := List.map_id st

theorem foldl_upsert_mem_of_ne {ps : List Company} {st : List Company}
    {x : Company} (hx : x ∈ st) (h : ∀ c ∈ ps, x.duns ≠ c.duns) :
    x ∈ ps.foldl upsertByDuns st := by
  induction ps generalizing st with
  | nil => exact hx
  | cons c0 rest ih =>
    exact ih (mem_upsert_of_ne hx (h c0 (List.mem_cons_self c0 rest)))
      (fun c hc => h c (List.mem_cons_of_mem c0 hc))

theorem mem_foldl_upsert {ps : List Company} {st : List Company} {x : Company}
    (hx : x ∈ ps.foldl upsertByDuns st) :
    x ∈ ps ∨ (x ∈ st ∧ ∀ c ∈ ps, x.duns ≠ c.duns) := by
  induction ps generalizing st with
  | nil => exact Or.inr ⟨hx, by simp⟩
  | cons c0 rest ih =>
    rcases ih hx with h | ⟨hmem, hne⟩
    · exact Or.inl (List.mem_cons_of_mem c0 h)
    · rcases mem_upsert hmem with rfl | ⟨hst, hne0⟩
      · exact Or.inl (List.mem_cons_self x rest)
      · refine Or.inr ⟨hst, fun c hc => ?_⟩
        rcases List.mem_cons.mp hc with rfl | hc
        · exact hne0
        · exact hne c hc

theorem foldl_upsert_pairwise {ps : List Company} {st : List Company}
    (h : st.Pairwise (fun a b => a.duns ≠ b.duns)) :
    (ps.foldl upsertByDuns st).Pairwise (fun a b => a.duns ≠ b.duns) := by
  induction ps generalizing st with
  | nil => exact h
  | cons c0 rest ih => exact ih (upsert_pairwise h)

theorem foldl_upsert_key_exists {ps : List Company} {st : List Company}
    {d : String} (hd : ∃ x ∈ st, x.duns = d) :
    ∃ y ∈ ps.foldl upsertByDuns st, y.duns = d := by
  induction ps generalizing st with
  | nil => exact hd
  | cons c0 rest ih =>
    apply ih
    rcases hd with ⟨x, hx, rfl⟩
    by_cases hk : x.duns = c0.duns
    · rcases exists_key_upsert st c0 with ⟨y, hy, hyk⟩
      exact ⟨y, hy, by rw [hyk, hk]⟩
    · exact ⟨x, mem_upsert_of_ne hx hk, rfl⟩

theorem foldl_upsert_key_facts {ps : List Company} {st : List Company}
    (hps : ps.Pairwise (fun a b => a.duns ≠ b.duns)) :
    ∀ c ∈ ps,
      (∃ x ∈ ps.foldl upsertByDuns st, x.duns = c.duns) ∧
      (∀ x ∈ ps.foldl upsertByDuns st, x.duns = c.duns → x = c) := by
  induction ps generalizing st with
  | nil => intro c hc; exact absurd hc (List.not_mem_nil c)
  | cons c0 rest ih =>
    intro c hc
    rcases List.pairwise_cons.mp hps with ⟨hne0, hrest⟩
    rcases List.mem_cons.mp hc with rfl | hc
    · constructor
      · show ∃ x ∈ rest.foldl upsertByDuns (upsertByDuns st c), x.duns = c.duns
        exact foldl_upsert_key_exists (exists_key_upsert st c)
      · intro x hx hk
        have hx' : x ∈ rest.foldl upsertByDuns (upsertByDuns st c) := hx
        rcases mem_foldl_upsert hx' with hxr | ⟨hxu, _⟩
        · exact absurd hk.symm (hne0 x hxr)
        · exact all_key_upsert hxu hk
    · exact ih hrest c hc

theorem foldl_upsert_idempotent {ps : List Company} {st : List Company}
    (hfacts : ∀ c ∈ ps,
      (∃ x ∈ st, x.duns = c.duns) ∧ (∀ x ∈ st, x.duns = c.duns → x = c)) :
    ps.foldl upsertByDuns st = st := by
  induction ps with
  | nil => rfl
  | cons c0 rest ih =>
    have h0 := hfacts c0 (List.mem_cons_self c0 rest)
    have he : upsertByDuns st c0 = st := upsert_eq_self h0.1 h0.2
    show rest.foldl upsertByDuns (upsertByDuns st c0) = st
    rw [he]
    exact ih (fun c hc => hfacts c (List.mem_cons_of_mem c0 hc))

theorem parsedCompanies_eq_foldl (files : List (String × List InfoCsvRow)) :
    parsedCompanies files =
      (files.map (fun f => parseCompanyFile f.1 f.2)).foldl upsertByDuns [] :=
  (List.foldl_map _ _ _ _).symm

theorem parsedCompanies_pairwise (files : List (String × List InfoCsvRow)) :
    (parsedCompanies files).Pairwise (fun a b => a.duns ≠ b.duns) := by
  rw [parsedCompanies_eq_foldl]
  exact foldl_upsert_pairwise List.Pairwise.nil

theorem filter_key_singleton {l : List Company} {c : Company}
    (hpair : l.Pairwise (fun a b => a.duns ≠ b.duns))
    (hex : ∃ x ∈ l, x.duns = c.duns)
    (hall : ∀ x ∈ l, x.duns = c.duns → x = c) :
    l.filter (fun x => x.duns == c.duns) = [c] := by
  induction l with
  | nil => rcases hex with ⟨x, hx, _⟩; exact absurd hx (List.not_mem_nil x)
  | cons h t ih =>
    rcases List.pairwise_cons.mp hpair with ⟨hht, htp⟩
    by_cases hk : h.duns = c.duns
    · have hcond : (h.duns == c.duns) = true := beq_iff_eq.mpr hk
      rw [List.filter_cons, hcond, if_pos rfl,
        hall h (List.mem_cons_self h t) hk]
      congr 1
      apply List.filter_eq_nil_iff.mpr
      intro x hx
      have hne : h.duns ≠ x.duns := hht x hx
      simp only [Bool.not_eq_true]
      exact beq_eq_false_iff_ne.mpr (fun e => hne (by rw [e, hk]))
    · have hcond : (h.duns == c.duns) = false := beq_eq_false_iff_ne.mpr hk
      rw [List.filter_cons, hcond, if_neg (by simp)]
      apply ih htp
      · rcases hex with ⟨x, hx, hxk⟩
        rcases List.mem_cons.mp hx with rfl | hx
        · exact absurd hxk hk
        · exact ⟨x, hx, hxk⟩
      · exact fun x hx => hall x (List.mem_cons_of_mem h hx)

theorem mem_importDependent {ρ α : Type} {parseFile : String → List ρ → List α}
    (key : α → String)
    (hkey : ∀ stem rows x, x ∈ parseFile stem rows → key x = stem)
    {store : List α} {files : List (String × List ρ)} {valid : List String}
    {x : α} (hx : x ∈ importDependent parseFile store files valid) :
    x ∈ store ∨ key x ∈ valid := by
  induction files generalizing store with
  | nil => exact Or.inl hx
  | cons f rest ih =>
    have hx' : x ∈ importDependent parseFile
        (if valid.contains f.1 then store ++ parseFile f.1 f.2 else store)
        rest valid := hx
    rcases ih hx' with h | h
    · by_cases hv : valid.contains f.1
      · rw [if_pos hv] at h
        rcases List.mem_append.mp h with h2 | h2
        · exact Or.inl h2
        · right
          rw [hkey f.1 f.2 x h2]
          simpa using hv
      · rw [if_neg hv] at h
        exact Or.inl h
    · exact Or.inr h

theorem finParse_key (stem : String) (rows : List FinCsvRow) (x : FinRecord)
    (hx : x ∈ rows.filterMap (parseFinRow stem)) : x.duns = stem := by
  rcases List.mem_filterMap.mp hx with ⟨row, _, hrow⟩
  unfold parseFinRow at hrow
  cases hy : pyInt row.year with
  | none => rw [hy] at hrow; exact Option.noConfusion hrow
  | some y =>
    rw [hy] at hrow
    simp only [Option.some.injEq] at hrow
    rw [← hrow]

theorem indParse_key (stem : String) (rows : List IndustryCsvRow)
    (x : Industry) (hx : x ∈ rows.map (parseIndustryRow stem)) :
    x.duns = stem := by
  rcases List.mem_map.mp hx with ⟨row, _, rfl⟩
  rfl

theorem opParse_key (stem : String) (rows : List OpCsvRow) (x : Operation)
    (hx : x ∈ rows.map (fun r =>
      { duns := stem, field_name := some r.field_name
        field_value := some r.field_value : Operation })) : x.duns = stem := by
  rcases List.mem_map.mp hx with ⟨row, _, rfl⟩
  rfl

theorem peopleParse_key (stem : String) (rows : List PersonCsvRow)
    (x : Person)
    (hx : x ∈ rows.map (fun r =>
      { duns := stem, person_name := r.person_name, title := some r.title
        responsibilities := some r.responsibilities : Person })) :
    x.duns = stem := by
  rcases List.mem_map.mp hx with ⟨row, _, rfl⟩
  rfl

theorem finFiltered_sublist (rows : List FinRecord) (year : Option Int)
    (li : Option String) : (finFiltered rows year li).Sublist rows := by
  unfold finFiltered
  split <;> split <;>
    first
      | exact (List.filter_sublist _).trans (List.filter_sublist _)
      | exact List.filter_sublist _
      | exact List.Sublist.refl _

theorem peopleFiltered_sublist (rows : List Person)
    (t n r : Option String) : (peopleFiltered rows t n r).Sublist rows := by
  unfold peopleFiltered
  split <;> split <;> split <;>
    first
      | exact ((List.filter_sublist _).trans
          (List.filter_sublist _)).trans (List.filter_sublist _)
      | exact (List.filter_sublist _).trans (List.filter_sublist _)
      | exact List.filter_sublist _
      | exact List.Sublist.refl _

theorem list_industries_sublist (db : DB) (code description : Option String)
    (primary_only : Bool) :
    ((list_industries db code description primary_only).industries).Sublist
      db.industries := by
  unfold list_industries
  split <;> split <;> split <;>
    first
      | exact ((List.filter_sublist _).trans
          (List.filter_sublist _)).trans (List.filter_sublist _)
      | exact (List.filter_sublist _).trans (List.filter_sublist _)
      | exact List.filter_sublist _
      | exact List.Sublist.refl _

/-- C1 counterexample: one company carrying classification code 1234 on two
rows makes the code-filtered company listing report `total = 2`, although
exactly one distinct company qualifies — the filter is a row-multiplying
join, not a semi-join. -/
theorem C1_join_total_counterexample :
    (list_companies dbC1 1 50 (some "1234") none none).total = 2 ∧
    (dbC1.companies.filter (fun c =>
      dbC1.industries.any (fun i =>
        i.duns == c.duns && i.industry_code == some "1234"))).length = 1 ∧
    (list_companies dbC1 1 50 (some "1234") none none).companies =
      [companyOf "000000001"] := by decide

/-- C1 amended: the code-filtered company listing returns only companies with
at least one matching classification row and repeats no company within a
page, but `total` counts the matching (company, classification) join rows and
therefore exceeds the number of distinct qualifying companies whenever a
company carries the code on several rows. -/
theorem C1_code_filter_join_semantics (db : DB) (page page_size : Nat)
    (code : String) (hcode : code ≠ "") :
    (∀ c ∈ (list_companies db page page_size (some code) none none).companies,
      c ∈ db.companies ∧
        ∃ i ∈ db.industries, i.duns = c.duns ∧ i.industry_code = some code) ∧
    (list_companies db page page_size (some code) none none).total =
      (companyRows db (some code)).length ∧
    (list_companies db page page_size (some code) none none).companies.Pairwise
      (fun a b => a.duns ≠ b.duns) := by
  refine ⟨?_, rfl, dedupByDuns_pairwise _⟩
  intro c hc
  exact mem_companyRows_some
    ((slice_sublist _ _ _).mem (mem_dedupByDuns hc)) hcode

/-- C1 witness: the amended join characterisation at the two-row store. -/
theorem C1_code_filter_join_semantics_witness :
    (∀ c ∈ (list_companies dbC1 1 50 (some "1234") none none).companies,
      c ∈ dbC1.companies ∧
        ∃ i ∈ dbC1.industries, i.duns = c.duns ∧ i.industry_code = some "1234") ∧
    (list_companies dbC1 1 50 (some "1234") none none).total =
      (companyRows dbC1 (some "1234")).length ∧
    (list_companies dbC1 1 50 (some "1234") none none).companies.Pairwise
      (fun a b => a.duns ≠ b.duns) :=
  C1_code_filter_join_semantics dbC1 1 50 "1234" (by decide)

theorem sliceSpec_holds {α : Type} (l : List α) (n o : Nat) :
    sliceSpec l l.length ((l.drop o).take n) n o :=
  ⟨rfl, rfl, List.length_take_le n _, (slice_sublist l o n).length_le,
   fun h => by rw [List.drop_eq_nil_of_le h, List.take_nil]⟩

/-- C4 counterexample: for the company listing with a classification-code
filter, one qualifying company with two matching classification rows and
`page_size = 1` makes page 2 — a page beyond the one-company data — come
back non-empty (and distinct from the empty slice of the qualifying-company
collection), refuting the beyond-the-data clause and the slice clause. -/
theorem C4_pagination_counterexample :
    (dbC1.companies.filter (fun c =>
      dbC1.industries.any (fun i =>
        i.duns == c.duns && i.industry_code == some "1234"))).length = 1 ∧
    (list_companies dbC1 2 1 (some "1234") none none).companies =
      [companyOf "000000001"] := by decide

/-- C4 amended: the pagination contract (total counts the filtered rows, the
page is the slice, page length is bounded by size and total, beyond-the-data
pages are empty) holds for the people listings, the per-company people
listing and the three flat financial listings, and for the company listing
whenever no classification-code filter is supplied (over a store with
distinct primary keys); under a code filter the filtered collection is the
row-multiplying join, the slice is additionally deduplicated, and only the
bound, the total bound and the beyond-the-data clauses survive. -/
theorem C4_pagination_contract :
    (∀ (db : DB) (ct s : Option String) (page page_size : Nat),
      db.companies.Pairwise (fun a b => a.duns ≠ b.duns) →
      sliceSpec (companiesFiltered db.companies ct s)
        (list_companies db page page_size none ct s).total
        (list_companies db page page_size none ct s).companies
        page_size ((page - 1) * page_size)) ∧
    (∀ (db : DB) (t n r : Option String) (page page_size : Nat),
      sliceSpec (peopleFiltered db.people t n r)
        (list_people db page page_size t n r).total
        (list_people db page page_size t n r).people
        page_size ((page - 1) * page_size)) ∧
    (∀ (db : DB) (duns : String) (page page_size : Nat)
        (resp : PersonListResponse),
      get_company_people db duns page page_size = .ok resp →
      sliceSpec (db.people.filter (fun p => p.duns == duns))
        resp.total resp.people page_size ((page - 1) * page_size)) ∧
    (∀ (db : DB) (year : Option Int) (li : Option String) (limit offset : Nat),
      sliceSpec (finFiltered db.balance_sheets year li)
        (list_balance_sheets db year li limit offset).total
        (list_balance_sheets db year li limit offset).records limit offset ∧
      sliceSpec (finFiltered db.cash_flow_statements year li)
        (list_cash_flows db year li limit offset).total
        (list_cash_flows db year li limit offset).records limit offset ∧
      sliceSpec (finFiltered db.income_statements year li)
        (list_income_statements db year li limit offset).total
        (list_income_statements db year li limit offset).records limit offset) ∧
    (∀ (db : DB) (code : String) (page page_size : Nat),
      (list_companies db page page_size (some code) none none).companies.length
          ≤ page_size ∧
      (list_companies db page page_size (some code) none none).companies.length
          ≤ (list_companies db page page_size (some code) none none).total ∧
      ((list_companies db page page_size (some code) none none).total
          ≤ (page - 1) * page_size →
        (list_companies db page page_size (some code) none none).companies
          = [])) := by
  refine ⟨?_, ?_, ?_, ?_, ?_⟩
  · intro db ct s page page_size hwf
    have hpair : (companiesFiltered db.companies ct s).Pairwise
        (fun a b => a.duns ≠ b.duns) := by
      unfold companiesFiltered
      split <;> split <;>
        first
          | exact hwf
          | exact hwf.sublist (List.filter_sublist _)
          | exact (hwf.sublist (List.filter_sublist _)).sublist
              (List.filter_sublist _)
    have hslice : (((companiesFiltered db.companies ct s).drop
        ((page - 1) * page_size)).take page_size).Pairwise
        (fun a b => a.duns ≠ b.duns) :=
      hpair.sublist (slice_sublist _ _ _)
    have hd : (list_companies db page page_size none ct s).companies =
        ((companiesFiltered db.companies ct s).drop
          ((page - 1) * page_size)).take page_size :=
      dedupByDuns_eq_self hslice
    have := sliceSpec_holds (companiesFiltered db.companies ct s)
      page_size ((page - 1) * page_size)
    rw [show (list_companies db page page_size none ct s).total =
        (companiesFiltered db.companies ct s).length from rfl, hd]
    exact this
  · intro db t n r page page_size
    exact sliceSpec_holds _ _ _
  · intro db duns page page_size resp h
    unfold get_company_people at h
    cases hf : findCompany db duns with
    | none => rw [hf] at h; exact absurd h (by simp)
    | some c =>
      rw [hf] at h
      simp only [Except.ok.injEq] at h
      rw [← h]
      exact sliceSpec_holds _ _ _
  · intro db year li limit offset
    exact ⟨sliceSpec_holds _ _ _, sliceSpec_holds _ _ _, sliceSpec_holds _ _ _⟩
  · intro db code page page_size
    have hsub : (list_companies db page page_size (some code) none none).companies.Sublist
        (((companiesFiltered (companyRows db (some code)) none none).drop
          ((page - 1) * page_size)).take page_size) :=
      dedupByDunsAux_sublist [] _
    refine ⟨hsub.length_le.trans (List.length_take_le _ _), ?_, ?_⟩
    · exact hsub.length_le.trans
        ((slice_sublist (companiesFiltered (companyRows db (some code)) none none)
          ((page - 1) * page_size) page_size).length_le)
    · intro htot
      have hdrop : (companiesFiltered (companyRows db (some code)) none none).drop
          ((page - 1) * page_size) = [] :=
        List.drop_eq_nil_of_le htot
      show dedupByDuns (((companiesFiltered (companyRows db (some code))
        none none).drop ((page - 1) * page_size)).take page_size) = []
      rw [hdrop, List.take_nil]
      rfl

theorem mem_codeRows {db : DB} {i : Industry} :
    i ∈ codeRows db ↔ i ∈ db.industries ∧
      ∃ c, i.industry_code = some c ∧ c ≠ "" := by
  unfold codeRows
  rw [List.mem_filter]
  constructor
  · rintro ⟨h1, h2⟩
    simp only [Bool.and_eq_true, bne_iff_ne, ne_eq] at h2
    refine ⟨h1, ?_⟩
    cases hc : i.industry_code with
    | none => exact absurd hc h2.1
    | some c => exact ⟨c, rfl, fun e => h2.2 (by rw [hc, e])⟩
  · rintro ⟨h1, c, hc, hne⟩
    refine ⟨h1, ?_⟩
    simp [hc, hne]

/-- C9 counterexample: two classification rows carrying the same code with
different descriptions make the unique-codes aggregation list that code
twice — the grouping key is the (code, description) pair, not the code. -/
theorem C9_codes_counterexample :
    ((list_industry_codes dbC9).codes.map (fun e => e.code)) =
      ["1234", "1234"] := by decide

/-- C9 amended: the aggregation returns each distinct
(code, description) pair with a non-null, non-empty code exactly once,
paired with the number of distinct companies carrying that exact pair,
sorted by that count descending; a code borne under several distinct
descriptions therefore appears once per description. -/
theorem C9_industry_codes_grouping (db : DB) :
    ((list_industry_codes db).codes.map
      (fun e => (e.code, e.description))).Nodup ∧
    (list_industry_codes db).codes.Pairwise
      (fun a b => b.company_count ≤ a.company_count) ∧
    (∀ e ∈ (list_industry_codes db).codes,
      e.code ≠ "" ∧
      e.company_count = codeGroupCount db (e.code, e.description) ∧
      ∃ i ∈ db.industries, i.industry_code = some e.code ∧
        i.industry_description = e.description) ∧
    (∀ i ∈ db.industries, ∀ c : String,
      i.industry_code = some c → c ≠ "" →
      ∃ e ∈ (list_industry_codes db).codes,
        e.code = c ∧ e.description = i.industry_description) ∧
    (list_industry_codes db).total = (list_industry_codes db).codes.length := by
  have hperm : (list_industry_codes db).codes.Perm
      ((codeKeys db).map (fun k =>
        { code := k.1, description := k.2
          company_count := codeGroupCount db k : CodeCount })) :=
    List.perm_insertionSort _ _
  refine ⟨?_, ?_, ?_, ?_, rfl⟩
  · have hmap : (((codeKeys db).map (fun k =>
        { code := k.1, description := k.2
          company_count := codeGroupCount db k : CodeCount })).map
        (fun e => (e.code, e.description))) = codeKeys db := by
      rw [List.map_map]
      simp [Function.comp_def]
    rw [(hperm.map (fun e => (e.code, e.description))).nodup_iff, hmap]
    exact List.nodup_dedup _
  · haveI : IsTotal CodeCount (fun a b => b.company_count ≤ a.company_count) :=
      ⟨fun a b => le_total _ _⟩
    haveI : IsTrans CodeCount (fun a b => b.company_count ≤ a.company_count) :=
      ⟨fun _ _ _ h1 h2 => le_trans h2 h1⟩
    exact List.sorted_insertionSort _ _
  · intro e he
    rcases List.mem_map.mp (hperm.mem_iff.mp he) with ⟨k, hk, rfl⟩
    rcases List.mem_map.mp (List.mem_dedup.mp hk) with ⟨i, hi, hki⟩
    rcases mem_codeRows.mp hi with ⟨himem, c, hc, hcne⟩
    have hk1 : k.1 = c := by rw [← hki]; simp [hc]
    have hk2 : k.2 = i.industry_description := by rw [← hki]
    refine ⟨by rw [hk1]; exact hcne, rfl, i, himem, ?_, hk2.symm⟩
    rw [hk1, hc]
  · intro i hi c hc hcne
    have hirow : i ∈ codeRows db := mem_codeRows.mpr ⟨hi, c, hc, hcne⟩
    have hkey : (c, i.industry_description) ∈ codeKeys db := by
      apply List.mem_dedup.mpr
      apply List.mem_map.mpr
      exact ⟨i, hirow, by simp [hc]⟩
    refine ⟨{ code := c, description := i.industry_description
              company_count := codeGroupCount db (c, i.industry_description) },
      hperm.mem_iff.mpr (List.mem_map.mpr ⟨(c, i.industry_description), hkey, rfl⟩),
      rfl, rfl⟩

/-- C9 witness: the amended grouping statement applied at the two-row store,
exhibiting the (1234, Widgets) group. -/
theorem C9_industry_codes_grouping_witness :
    ∃ e ∈ (list_industry_codes dbC9).codes,
      e.code = "1234" ∧ e.description = some "Widgets" :=
  (C9_industry_codes_grouping dbC9).2.2.2.1
    (indRow "1" "1234" "Widgets") (by decide) "1234" rfl (by decide)

/-- C4 witness: the amended pagination contract at a two-person store, page 2
of size 1, and the company-listing branches at the shared two-row
classification store. -/
theorem C4_pagination_contract_witness :
    sliceSpec (peopleFiltered dbC4.people none none none)
      (list_people dbC4 2 1 none none none).total
      (list_people dbC4 2 1 none none none).people 1 1 ∧
    sliceSpec (companiesFiltered dbC1.companies none none)
      (list_companies dbC1 1 50 none none none).total
      (list_companies dbC1 1 50 none none none).companies 50 0 :=
  ⟨C4_pagination_contract.2.1 dbC4 none none none 2 1,
   C4_pagination_contract.1 dbC1 none none 1 50 (by decide)⟩

/-- C2: the value normalizer satisfies the reference equalities
`normalize("$43,079") = 43079`, `normalize("($34,984)") = -34984`,
`normalize("-") = none`, `normalize("12.5%") = 12.5`, `normalize("") = none`;
generally, once the guards pass and the quote-stripped text `t` contains a
percent sign, the result is the parse of `t` with percent signs and commas
removed (never divided by 100), and if `t` has no percent sign but contains
both parentheses, the result is the negated parse of `t` with `$`, `,`, `(`,
`)` and straight double quotes removed. -/
theorem C2_normalizer_reference_values :
    parse_numeric_value "$43,079" = some (43079 : ℚ) ∧
    parse_numeric_value "($34,984)" = some (-34984 : ℚ) ∧
    parse_numeric_value "-" = none ∧
    parse_numeric_value "12.5%" = some (12.5 : ℚ) ∧
    parse_numeric_value "" = none ∧
    (∀ (s : String) (t : List Char),
      stripQuotes (pyStrip s.toList) = t →
      (s == "" || s == "-" || (pyStrip s.toList).isEmpty) = false →
      (t.isEmpty || t == ['-']) = false →
      t.contains '%' = true →
      parse_numeric_value s =
        pyFloatL (pyStrip (removeChars (fun c => c == '%' || c == ',') t))) ∧
    (∀ (s : String) (t : List Char),
      stripQuotes (pyStrip s.toList) = t →
      (s == "" || s == "-" || (pyStrip s.toList).isEmpty) = false →
      (t.isEmpty || t == ['-']) = false →
      t.contains '%' = false →
      t.contains '(' = true →
      t.contains ')' = true →
      parse_numeric_value s =
        Option.map (fun q => -q)
          (pyFloatL (pyStrip (removeChars currencyStrippedChar t)))) := by
  refine ⟨?_, ?_, by decide, ?_, by decide, ?_, ?_⟩
  · have h : parse_numeric_value "$43,079" = some (mkRat 43079 1) := by decide
    rw [h]; norm_num [Rat.mkRat_eq_div]
  · have h : parse_numeric_value "($34,984)" = some (mkRat (-34984) 1) := by decide
    rw [h]; norm_num [Rat.mkRat_eq_div]
  · have h : parse_numeric_value "12.5%" = some (mkRat 125 10) := by decide
    rw [h]; norm_num [Rat.mkRat_eq_div]
  · intro s t ht hg hg2 hp
    simp only [parse_numeric_value, hg, Bool.false_eq_true, if_false, ht,
      pnvBody, hg2, hp, if_true]
  · intro s t ht hg hg2 hp hl hr
    simp only [parse_numeric_value, hg, Bool.false_eq_true, if_false, ht,
      pnvBody, hg2, hp, hl, hr, Bool.and_self, if_true]
    by_cases hc :
        ((pyStrip (removeChars currencyStrippedChar t)).isEmpty ||
          pyStrip (removeChars currencyStrippedChar t) == ['-']) = true
    · have hnone : pyFloatL (pyStrip (removeChars currencyStrippedChar t)) = none := by
        rcases Bool.or_eq_true_iff.mp hc with h | h
        · rw [List.isEmpty_iff.mp h]; exact pyFloatL_nil
        · rw [beq_iff_eq.mp h]; exact pyFloatL_dash
      simp [hc, hnone]
    · simp only [Bool.not_eq_true] at hc
      simp only [hc, Bool.false_eq_true, if_false]
      cases hpf : pyFloatL (pyStrip (removeChars currencyStrippedChar t)) <;>
        simp [hpf]

/-- C2 witness: the percentage rule instantiated at `"12.5%"` and the
parenthesised-currency rule instantiated at `"($34,984)"`. -/
theorem C2_normalizer_reference_values_witness :
    (parse_numeric_value "12.5%" =
      pyFloatL (pyStrip (removeChars (fun c => c == '%' || c == ',')
        "12.5%".toList))) ∧
    (parse_numeric_value "($34,984)" =
      Option.map (fun q => -q)
        (pyFloatL (pyStrip (removeChars currencyStrippedChar
          "($34,984)".toList)))) :=
  ⟨C2_normalizer_reference_values.2.2.2.2.2.1 "12.5%" ("12.5%".toList)
      (by decide) (by decide) (by decide) (by decide),
   C2_normalizer_reference_values.2.2.2.2.2.2 "($34,984)" ("($34,984)".toList)
      (by decide) (by decide) (by decide) (by decide) (by decide) (by decide)⟩

/-- C3 counterexample: the number 42 wrapped in one layer of curly quotes
normalizes to `none`, not to 42 — the normalizer never strips curly
quotes. -/
theorem C3_curly_quotes_counterexample :
    parse_numeric_value "“42”" = none ∧
    parse_numeric_value "“42”" ≠ some (42 : ℚ) := by decide

/-- C3 amended: before inspecting the input the normalizer strips
whitespace, then every layer of surrounding straight double quotes, then
every layer of surrounding straight single quotes (all layers rather than
exactly one, and straight quotes only — curly quotes are left in place and
defeat parsing); every valid plain number wrapped in one layer of straight
double or single quotes normalizes to that number, and a doubly
double-quoted percentage still parses. -/
theorem C3_quote_stripping_amended :
    (∀ (s : String) (q : ℚ),
      pyFloatL s.toList = some q →
      (∀ c ∈ s.toList, plainChar c = true) →
      parse_numeric_value
          ((⟨[doubleQuote]⟩ : String) ++ s ++ ⟨[doubleQuote]⟩) = some q ∧
      parse_numeric_value
          ((⟨[singleQuote]⟩ : String) ++ s ++ ⟨[singleQuote]⟩) = some q) ∧
    parse_numeric_value "\"\"12.5%\"\"" = some (mkRat 125 10) :=
  ⟨fun _ _ hp hpl =>
    ⟨parse_numeric_value_wrapped doubleQuote (Or.inl rfl) hp hpl,
     parse_numeric_value_wrapped singleQuote (Or.inr rfl) hp hpl⟩,
   by decide⟩

/-- C3 witness: the number 42 wrapped in straight double or single quotes
normalizes to 42. -/
theorem C3_quote_stripping_amended_witness :
    parse_numeric_value
        ((⟨[doubleQuote]⟩ : String) ++ "42" ++ ⟨[doubleQuote]⟩) =
      some (mkRat 42 1) ∧
    parse_numeric_value
        ((⟨[singleQuote]⟩ : String) ++ "42" ++ ⟨[singleQuote]⟩) =
      some (mkRat 42 1) :=
  C3_quote_stripping_amended.1 "42" (mkRat 42 1) (by decide) (by decide)

/-- C5: a lookup under a business key that resolves to no company fails with
the not-found error carrying the requested key, for the company lookup and
for every dependent-collection lookup, regardless of what dependent rows the
store holds. -/
theorem C5_not_found_propagation (db : DB) (duns : String)
    (page page_size : Nat) (year : Option Int) (line_item : Option String)
    (h : ∀ c ∈ db.companies, c.duns ≠ duns) :
    get_company db duns = .error (.notFound (notFoundDetail duns)) ∧
    get_company_industries db duns = .error (.notFound (notFoundDetail duns)) ∧
    get_company_operations db duns = .error (.notFound (notFoundDetail duns)) ∧
    get_company_people db duns page page_size =
      .error (.notFound (notFoundDetail duns)) ∧
    get_company_balance_sheet db duns year line_item =
      .error (.notFound (notFoundDetail duns)) ∧
    get_company_cash_flow db duns year line_item =
      .error (.notFound (notFoundDetail duns)) ∧
    get_company_income_statement db duns year line_item =
      .error (.notFound (notFoundDetail duns)) := by
  have hfind : findCompany db duns = none := by
    apply List.find?_eq_none.mpr
    intro c hc
    simpa using h c hc
  refine ⟨?_, ?_, ?_, ?_, ?_, ?_, ?_⟩ <;>
    simp [get_company, get_company_industries, get_company_operations,
      get_company_people, get_company_balance_sheet, get_company_cash_flow,
      get_company_income_statement, finListCompany, hfind]

/-- C5 witness: a store that holds dependent rows for key `999888777` but no
company under that key answers every lookup with the not-found error. -/
theorem C5_not_found_propagation_witness :
    get_company dbC5 "999888777" =
      .error (.notFound (notFoundDetail "999888777")) ∧
    get_company_industries dbC5 "999888777" =
      .error (.notFound (notFoundDetail "999888777")) ∧
    get_company_operations dbC5 "999888777" =
      .error (.notFound (notFoundDetail "999888777")) ∧
    get_company_people dbC5 "999888777" 1 50 =
      .error (.notFound (notFoundDetail "999888777")) ∧
    get_company_balance_sheet dbC5 "999888777" none none =
      .error (.notFound (notFoundDetail "999888777")) ∧
    get_company_cash_flow dbC5 "999888777" none none =
      .error (.notFound (notFoundDetail "999888777")) ∧
    get_company_income_statement dbC5 "999888777" none none =
      .error (.notFound (notFoundDetail "999888777")) :=
  C5_not_found_propagation dbC5 "999888777" 1 50 none none (by decide)

/-- C10: for each of the three flat financial-record listings, supplying a
fiscal-year filter of 0 is ignored: the matched total and the returned
records coincide with the unfiltered query, so records of every year come
back; additionally, a concrete store with records in years 0 and 5 returns
both under `year = 0`. -/
theorem C10_year_zero_filter_ignored :
    (∀ (db : DB) (line_item : Option String) (limit offset : Nat),
      (list_balance_sheets db (some 0) line_item limit offset).records =
        (list_balance_sheets db none line_item limit offset).records ∧
      (list_balance_sheets db (some 0) line_item limit offset).total =
        (list_balance_sheets db none line_item limit offset).total ∧
      (list_cash_flows db (some 0) line_item limit offset).records =
        (list_cash_flows db none line_item limit offset).records ∧
      (list_cash_flows db (some 0) line_item limit offset).total =
        (list_cash_flows db none line_item limit offset).total ∧
      (list_income_statements db (some 0) line_item limit offset).records =
        (list_income_statements db none line_item limit offset).records ∧
      (list_income_statements db (some 0) line_item limit offset).total =
        (list_income_statements db none line_item limit offset).total) ∧
    (list_balance_sheets
        { emptyDB with
          balance_sheets := [finRec "1" "Cash" 0, finRec "1" "Cash" 5] }
        (some 0) none 100 0).records =
      [finRec "1" "Cash" 0, finRec "1" "Cash" 5] :=
  ⟨fun _ _ _ _ => ⟨rfl, rfl, rfl, rfl, rfl, rfl⟩, by decide⟩

theorem finListCompany_ok_sorted {db : DB} {rows : List FinRecord}
    {duns : String} {year : Option Int} {line_item : Option String}
    {resp : FinListResponse}
    (h : finListCompany db rows duns year line_item = .ok resp) :
    resp.records.Sorted finOrder := by
  unfold finListCompany at h
  cases hf : findCompany db duns with
  | none => rw [hf] at h; exact absurd h (by simp)
  | some c =>
    rw [hf] at h
    simp only [Except.ok.injEq] at h
    rw [← h]
    exact List.sorted_insertionSort finOrder _

/-- C6 counterexample: importing over a store that already holds key
000000001 with `acn = "A"`, from a source that carries `acn = "B"` for the
same key, leaves `acn = "B"` — the incoming write wins the key conflict, not
the first write. -/
theorem C6_first_write_wins_counterexample :
    (import_company_info storeC6 filesC6).1 = [pcC6] ∧
    pcC6.acn = some "B" ∧
    storeC6.map (fun c => c.acn) = [some "A"] ∧
    (import_company_info storeC6 filesC6).1.map (fun c => c.acn) =
      [some "B"] := by decide

/-- C6 amended: company import is idempotent by business key — re-running
with an identical source returns the identical store (hence unchanged row
count and field values) — and it upserts by key with one row per key, the
incoming (merge) write overwriting every field of an existing row under the
same key: after the import, the store holds exactly one row under each
imported key, namely the freshly parsed company. -/
theorem C6_company_import_idempotent_upsert :
    (∀ (store : List Company) (files : List (String × List InfoCsvRow)),
      import_company_info (import_company_info store files).1 files =
        import_company_info store files) ∧
    (∀ (store : List Company) (files : List (String × List InfoCsvRow))
        (c : Company),
      store.Pairwise (fun a b => a.duns ≠ b.duns) →
      c ∈ parsedCompanies files →
      (import_company_info store files).1.filter
        (fun x => x.duns == c.duns) = [c]) := by
  constructor
  · intro store files
    have h1 : (parsedCompanies files).foldl upsertByDuns
        ((parsedCompanies files).foldl upsertByDuns store) =
        (parsedCompanies files).foldl upsertByDuns store :=
      foldl_upsert_idempotent
        (foldl_upsert_key_facts (parsedCompanies_pairwise files))
    show ((parsedCompanies files).foldl upsertByDuns
        ((parsedCompanies files).foldl upsertByDuns store),
      (parsedCompanies files).map (fun c => c.duns)) =
      ((parsedCompanies files).foldl upsertByDuns store,
        (parsedCompanies files).map (fun c => c.duns))
    rw [h1]
  · intro store files c hwf hc
    exact filter_key_singleton (foldl_upsert_pairwise hwf)
      (foldl_upsert_key_facts (parsedCompanies_pairwise files) c hc).1
      (foldl_upsert_key_facts (parsedCompanies_pairwise files) c hc).2

/-- C6 witness: re-running the one-file import is a no-op, and the imported
store holds exactly one row under key 000000001, carrying the imported
field values. -/
theorem C6_company_import_idempotent_upsert_witness :
    import_company_info (import_company_info storeC6 filesC6).1 filesC6 =
      import_company_info storeC6 filesC6 ∧
    (import_company_info storeC6 filesC6).1.filter
        (fun x => x.duns == pcC6.duns) = [pcC6] :=
  ⟨C6_company_import_idempotent_upsert.1 storeC6 filesC6,
   C6_company_import_idempotent_upsert.2 storeC6 filesC6 pcC6
     (by decide) (by decide)⟩

/-- C7: referential integrity is an invariant of the import: over a store in
which every dependent row has a parent company, a full import run (companies
first, dependents filtered by the valid key set) again yields a store in
which every dependent row of every table has a parent company, and no
orphaned row appears in the listing query results. -/
theorem C7_referential_integrity (db : DB) (src : Source)
    (h : refIntegrity db) :
    refIntegrity (runImport db src) ∧
    (∀ (year : Option Int) (li : Option String) (limit offset : Nat),
      (∀ r ∈ (list_balance_sheets (runImport db src) year li limit
          offset).records,
        ∃ c ∈ (runImport db src).companies, c.duns = r.duns) ∧
      (∀ r ∈ (list_cash_flows (runImport db src) year li limit
          offset).records,
        ∃ c ∈ (runImport db src).companies, c.duns = r.duns) ∧
      (∀ r ∈ (list_income_statements (runImport db src) year li limit
          offset).records,
        ∃ c ∈ (runImport db src).companies, c.duns = r.duns)) ∧
    (∀ (code desc : Option String) (po : Bool),
      ∀ r ∈ (list_industries (runImport db src) code desc po).industries,
        ∃ c ∈ (runImport db src).companies, c.duns = r.duns) ∧
    (∀ (page page_size : Nat) (t n resp : Option String),
      ∀ r ∈ (list_people (runImport db src) page page_size t n resp).people,
        ∃ c ∈ (runImport db src).companies, c.duns = r.duns) := by
  have hkeyup : ∀ d : String, (∃ x ∈ db.companies, x.duns = d) →
      ∃ c ∈ (runImport db src).companies, c.duns = d := by
    intro d hd
    exact foldl_upsert_key_exists hd
  have hvalid : ∀ d ∈ (parsedCompanies src.company_info).map
      (fun c => c.duns),
      ∃ c ∈ (runImport db src).companies, c.duns = d := by
    intro d hd
    rcases List.mem_map.mp hd with ⟨c0, hc0, rfl⟩
    exact (foldl_upsert_key_facts (parsedCompanies_pairwise _) c0 hc0).1
  have hbs : ∀ r ∈ (runImport db src).balance_sheets,
      ∃ c ∈ (runImport db src).companies, c.duns = r.duns := by
    intro r hr
    rcases mem_importDependent (fun r : FinRecord => r.duns)
        finParse_key hr with hold | hv
    · exact hkeyup r.duns (h.1 r hold)
    · exact hvalid r.duns hv
  have hcf : ∀ r ∈ (runImport db src).cash_flow_statements,
      ∃ c ∈ (runImport db src).companies, c.duns = r.duns := by
    intro r hr
    rcases mem_importDependent (fun r : FinRecord => r.duns)
        finParse_key hr with hold | hv
    · exact hkeyup r.duns (h.2.1 r hold)
    · exact hvalid r.duns hv
  have his : ∀ r ∈ (runImport db src).income_statements,
      ∃ c ∈ (runImport db src).companies, c.duns = r.duns := by
    intro r hr
    rcases mem_importDependent (fun r : FinRecord => r.duns)
        finParse_key hr with hold | hv
    · exact hkeyup r.duns (h.2.2.1 r hold)
    · exact hvalid r.duns hv
  have hind : ∀ r ∈ (runImport db src).industries,
      ∃ c ∈ (runImport db src).companies, c.duns = r.duns := by
    intro r hr
    rcases mem_importDependent (fun r : Industry => r.duns)
        indParse_key hr with hold | hv
    · exact hkeyup r.duns (h.2.2.2.1 r hold)
    · exact hvalid r.duns hv
  have hop : ∀ r ∈ (runImport db src).operations,
      ∃ c ∈ (runImport db src).companies, c.duns = r.duns := by
    intro r hr
    rcases mem_importDependent (fun r : Operation => r.duns)
        opParse_key hr with hold | hv
    · exact hkeyup r.duns (h.2.2.2.2.1 r hold)
    · exact hvalid r.duns hv
  have hpe : ∀ r ∈ (runImport db src).people,
      ∃ c ∈ (runImport db src).companies, c.duns = r.duns := by
    intro r hr
    rcases mem_importDependent (fun r : Person => r.duns)
        peopleParse_key hr with hold | hv
    · exact hkeyup r.duns (h.2.2.2.2.2 r hold)
    · exact hvalid r.duns hv
  refine ⟨⟨hbs, hcf, his, hind, hop, hpe⟩, ?_, ?_, ?_⟩
  · intro year li limit offset
    refine ⟨?_, ?_, ?_⟩ <;> intro r hr
    · exact hbs r (((slice_sublist _ _ _).trans
        (finFiltered_sublist _ _ _)).mem hr)
    · exact hcf r (((slice_sublist _ _ _).trans
        (finFiltered_sublist _ _ _)).mem hr)
    · exact his r (((slice_sublist _ _ _).trans
        (finFiltered_sublist _ _ _)).mem hr)
  · intro code desc po r hr
    exact hind r ((list_industries_sublist _ _ _ _).mem hr)
  · intro page page_size t n resp r hr
    exact hpe r (((slice_sublist _ _ _).trans
      (peopleFiltered_sublist _ _ _ _)).mem hr)

/-- C7 witness: importing into an empty store from a source whose
balance-sheet directory has a file for the unknown key 999999999 yields a
referentially intact store in which only the known-key rows appear — the
orphan file was skipped. -/
theorem C7_referential_integrity_witness :
    refIntegrity (runImport emptyDB srcC7) ∧
    (runImport emptyDB srcC7).balance_sheets.map (fun r => r.duns) =
      ["111111111"] :=
  ⟨(C7_referential_integrity emptyDB srcC7
      (by refine ⟨?_, ?_, ?_, ?_, ?_, ?_⟩ <;> intro r hr <;>
        exact absurd hr (List.not_mem_nil r))).1,
   by decide⟩

/-- C8: every successful per-company balance-sheet, cash-flow or
income-statement listing is ordered by fiscal year descending with ties
broken by line-item label ascending; in particular a company with records in
years {2023, 2024} and line items {Cash, Debt} gets all 2024 rows before all
2023 rows and Cash before Debt within each year. -/
theorem C8_company_statement_ordering :
    (∀ (db : DB) (duns : String) (year : Option Int)
        (line_item : Option String) (resp : FinListResponse),
      (get_company_balance_sheet db duns year line_item = .ok resp ∨
        get_company_cash_flow db duns year line_item = .ok resp ∨
        get_company_income_statement db duns year line_item = .ok resp) →
      resp.records.Sorted finOrder) ∧
    get_company_balance_sheet dbC8 "1" none none =
      .ok { total := 4, duns := some "1", year := none
            records := [finRec "1" "Cash" 2024, finRec "1" "Debt" 2024,
                        finRec "1" "Cash" 2023, finRec "1" "Debt" 2023] } := by
  constructor
  · intro db duns year line_item resp h
    rcases h with h | h | h <;> exact finListCompany_ok_sorted h
  · decide

/-- C8 witness: the ordering statement applied to the concrete four-record
store of years {2023, 2024} and line items {Cash, Debt}. -/
theorem C8_company_statement_ordering_witness :
    ([finRec "1" "Cash" 2024, finRec "1" "Debt" 2024,
      finRec "1" "Cash" 2023, finRec "1" "Debt" 2023] :
        List FinRecord).Sorted finOrder :=
  C8_company_statement_ordering.1 dbC8 "1" none none
    { total := 4, duns := some "1", year := none
      records := [finRec "1" "Cash" 2024, finRec "1" "Debt" 2024,
                  finRec "1" "Cash" 2023, finRec "1" "Debt" 2023] }
    (Or.inl (by decide))

end CompanyApi
